import Mathlib

/-!
Verification development for the image load/cache/eviction subsystem of the
repository (src/src/image.rs, with its host loop in src/src/lib.rs).

The Rust code is shallowly embedded: the shared, lock-guarded cell behind
`LoadContext` becomes an explicit record (`Inner`) threaded through the
operations; the process-wide `CACHE` map plus the reference counts of the
`Arc` handles become an explicit `CacheState` record; `Instant` timestamps
become natural numbers (seconds) supplied by the caller, mirroring the calls
to `Instant::now()`; the network transport and the image codec are external
crates and enter as injected outcomes/oracles, exactly as the spec treats
them (external collaborators specified at their interface boundary).
-/

set_option maxHeartbeats 1000000

namespace Img

/-- Cache key identifying one image source, from `enum Key` in
src/src/image.rs: a single variant wrapping an HTTPS url. -/
inductive Key where
  | Https (url : String)
  deriving DecidableEq, Repr

/-- Texture handle of the external egui dependency: `TextureId` has an
internally managed variant (`Egui`) and a user variant carrying a numeric
id (`User(u64)`). -/
inductive TextureId where
  | Egui
  | User (id : Nat)
  deriving DecidableEq, Repr

/-- Lifecycle tag of one load, from `enum LoadingStatus` in
src/src/image.rs. -/
inductive LoadingStatus where
  | Loading
  | Loaded (id : TextureId)
  | Error (msg : String)
  deriving DecidableEq, Repr

/-- From `LoadingStatus::as_error` in src/src/image.rs. -/
def LoadingStatus.as_error : LoadingStatus → Option String
  | .Error s => some s
  | _ => none

/-- From `LoadingStatus::as_texture` in src/src/image.rs. -/
def LoadingStatus.as_texture : LoadingStatus → Option TextureId
  | .Loaded id => some id
  | _ => none

/-- True exactly on the two terminal lifecycle tags. -/
def LoadingStatus.isTerminal : LoadingStatus → Bool
  | .Loading => false
  | _ => true

/-- The cell behind a `LoadContext`, from `struct Inner` in src/src/image.rs:
the lock-guarded lifecycle tag plus the last-access timestamp
(`Cell<Instant>`, embedded as seconds). -/
structure Inner where
  state : LoadingStatus
  last_access : Nat
  deriving DecidableEq, Repr

/-- From `LoadContext::accessed`: store the current instant into the
last-access cell. The current instant is the `now` argument. -/
def Inner.accessed (c : Inner) (now : Nat) : Inner :=
  { c with last_access := now }

/-- From `LoadContext::set_error`: refresh the access time, then overwrite
the lifecycle tag with `Error(e)`. -/
def Inner.set_error (c : Inner) (now : Nat) (e : String) : Inner :=
  { c.accessed now with state := .Error e }

/-- From `LoadContext::set_texture_id`: refresh the access time, then
overwrite the lifecycle tag with `Loaded(id)`. -/
def Inner.set_texture_id (c : Inner) (now : Nat) (id : TextureId) : Inner :=
  { c.accessed now with state := .Loaded id }

/-- From `LoadContext::get_texture_id`: refresh the access time and return a
snapshot of the texture handle, if loaded. Returns the updated cell paired
with the snapshot. -/
def Inner.get_texture_id (c : Inner) (now : Nat) : Inner × Option TextureId :=
  (c.accessed now, c.state.as_texture)

/-- From `LoadContext::get_error`: refresh the access time and return a
snapshot of the error message, if any. -/
def Inner.get_error (c : Inner) (now : Nat) : Inner × Option String :=
  (c.accessed now, c.state.as_error)

/-- Format hint of the external image crate (`image::ImageFormat`). Only its
presence or absence matters to the code under verification. -/
inductive ImageFormat where
  | Png
  | Jpeg
  deriving DecidableEq, Repr

/-- Result of the external image codec: a decoded picture with its
dimensions and its `to_rgba8` byte buffer. -/
structure DecodedImage where
  width : Nat
  height : Nat
  rgba : List Nat
  deriving DecidableEq, Repr

/-- Pixel buffer handed to egui (`epi::Image`): a size pair and the
non-premultiplied RGBA texel bytes. -/
structure EpiImage where
  size : List Nat
  pixels : List Nat
  deriving DecidableEq, Repr

/-- Boundary constructor `epi::Image::from_rgba_unmultiplied`. -/
def EpiImage.from_rgba_unmultiplied (size : List Nat) (rgba : List Nat) : EpiImage :=
  ⟨size, rgba⟩

/-- From `struct ToUIImage` in src/src/image.rs: the decoded-but-not-yet-
GPU-resident result (the ReadyImage of the spec). The `context` field is the
shared cell of the originating load; the Rust struct derives `Clone`. -/
structure ToUIImage where
  key : Key
  context : Inner
  image : EpiImage
  deriving DecidableEq, Repr

/-- Derived `Clone` of `ToUIImage` (src/src/image.rs, `#[derive(Clone)]` on
the struct): every field is cloned; cloning the `LoadContext` field clones
the `Arc`, so the clone shares the same underlying cell. -/
def ToUIImage.clone (t : ToUIImage) : ToUIImage :=
  t

/-- Observable outcome of one `ToUIImage::finish_load` call: the updated
cell (`none` models the unreachable-branch panic, which aborts before the
cell is written), the handle the allocator returned, and the list of
arguments passed to the external texture allocator during the call. -/
structure FrameResult where
  context : Option Inner
  texture : TextureId
  allocCalls : List EpiImage
  deriving DecidableEq, Repr

/-- From `ToUIImage::finish_load` in src/src/image.rs: call
`frame.alloc_texture` on the pixel buffer, then a `log::info!` statement
whose argument matches the returned handle against `TextureId::User` and
hits `unreachable!` on any other variant, then write `Loaded(texture)` into
the shared cell. The `log` crate evaluates the arguments of `log::info!`
only when info-level logging is enabled at runtime (`infoLogEnabled`
embeds the conjunction of its `STATIC_MAX_LEVEL` and `max_level()` checks;
with no logger installed `max_level()` is `Off`, so the arguments are
skipped). Hence with logging enabled a non-User handle aborts the call
before the cell is written, while with logging disabled the match never
runs and the handle — of whatever variant — is written to the cell. The
allocator is the injected collaborator `alloc`; `now` is the instant of the
`set_texture_id` call. -/
def ToUIImage.finish_load (t : ToUIImage) (alloc : EpiImage → TextureId)
    (infoLogEnabled : Bool) (now : Nat) : FrameResult :=
  let texture := alloc t.image
  if infoLogEnabled then
    match texture with
    | .User _ => ⟨some (t.context.set_texture_id now texture), texture, [t.image]⟩
    | .Egui => ⟨none, texture, [t.image]⟩
  else
    ⟨some (t.context.set_texture_id now texture), texture, [t.image]⟩

/-- Transport outcome of the reqwest build of `https_get`
(src/src/image.rs, `#[cfg(feature = "reqwest")]`): `reqwest::get` can fail
(connection failure), and `response.bytes()` can fail (transfer failure).
The carried strings are the debug-formatted causes produced by the external
crate. -/
inductive ReqwestOutcome where
  | connectError (e : String)
  | bodyError (e : String)
  | success (bytes : List Nat)
  deriving DecidableEq, Repr

/-- From the reqwest build of `https_get` in src/src/image.rs: a connection
failure is reported as "Could not connect to server: cause", a body
transfer failure as "Could not download image: cause"; success yields the
bytes with no format hint. -/
def https_get_reqwest : ReqwestOutcome → Except String (List Nat × Option ImageFormat)
  | .connectError e => .error ("Could not connect to server: " ++ e)
  | .bodyError e => .error ("Could not download image: " ++ e)
  | .success bytes => .ok (bytes, none)

/-- Transport outcome of the surf build of `https_get` (src/src/image.rs,
`#[cfg(feature = "surf")]`): `surf::get(url).recv_bytes()` either yields
bytes or one combined error. -/
inductive SurfOutcome where
  | failure (e : String)
  | success (bytes : List Nat)
  deriving DecidableEq, Repr

/-- From the surf build of `https_get` in src/src/image.rs: every failure is
reported as "Could not download image: cause". -/
def https_get_surf : SurfOutcome → Except String (List Nat × Option ImageFormat)
  | .failure e => .error ("Could not download image: " ++ e)
  | .success bytes => .ok (bytes, none)

/-- Decode dispatch inside `load_image_async` (src/src/image.rs): with a
format hint the codec is constrained to that format
(`image::load_from_memory_with_format`), otherwise the format is
auto-detected (`image::load_from_memory`). Both codec entry points are
injected oracles for the external image crate. -/
def decodeOf (lwf : List Nat → ImageFormat → Except String DecodedImage)
    (lfm : List Nat → Except String DecodedImage)
    (bytes : List Nat) (format : Option ImageFormat) : Except String DecodedImage :=
  match format with
  | some f => lwf bytes f
  | none => lfm bytes

/-- From `load_image_async` in src/src/image.rs. `fetch` is the already
resolved result of `https_get` for the url inside `key`; `lwf` and `lfm`
are the codec oracles; `now` is the instant of the `set_error` call, if one
happens. On fetch failure the error is written into the cell and no
ReadyImage is produced; on decode failure the stringified cause is written
with the "Could not decode image: " prefix; on success the cell is left
untouched and the ReadyImage (key, cell, pixel buffer) is produced. -/
def load_image_async (key : Key) (context : Inner) (now : Nat)
    (fetch : Except String (List Nat × Option ImageFormat))
    (lwf : List Nat → ImageFormat → Except String DecodedImage)
    (lfm : List Nat → Except String DecodedImage) :
    Inner × Option ToUIImage :=
  match fetch with
  | .error e => (context.set_error now e, none)
  | .ok (bytes, format) =>
    match decodeOf lwf lfm bytes format with
    | .ok image =>
      (context, some ⟨key, context,
        EpiImage.from_rgba_unmultiplied [image.width, image.height] image.rgba⟩)
    | .error e => (context.set_error now ("Could not decode image: " ++ e), none)

/-- One operation applied to a single shared cell over its lifetime. Per the
source, `set_error` is reachable only from the body of `load_image_async`
and `set_texture_id` only from `ToUIImage::finish_load`; both are private to
src/src/image.rs. `read` covers the public snapshot operations
`get_texture_id` and `get_error`, which only refresh the access time. -/
inductive CellEvent where
  | read (now : Nat)
  | taskError (e : String) (now : Nat)
  | finalize (id : TextureId) (now : Nat)
  deriving DecidableEq, Repr

/-- Apply one event to a cell, using the corresponding source operation. -/
def applyEvent (c : Inner) : CellEvent → Inner
  | .read now => c.accessed now
  | .taskError e now => c.set_error now e
  | .finalize id now => c.set_texture_id now id

/-- Run a sequence of events against a cell. -/
def runEvents (c : Inner) (es : List CellEvent) : Inner :=
  es.foldl applyEvent c

/-- True on the two mutating events. -/
def CellEvent.isWrite : CellEvent → Bool
  | .read _ => false
  | .taskError _ _ => true
  | .finalize _ _ => true

/-- Discipline the source imposes on the writes hitting one cell: the cell
is created by `get_context` together with the single background task that
ever holds it; that task either calls `set_error` once and produces no
ReadyImage (so `finish_load` is never reached for this cell), or calls
`set_error` never and produces the one ReadyImage whose delivery triggers at
most one `finish_load` (src/src/lib.rs, one call per delivered user event).
Hence at most one write is ever applied to a given cell. -/
def SingleWriter (es : List CellEvent) : Prop :=
  (es.filter CellEvent.isWrite).length ≤ 1

/-- Lookup in an association list (embedding of `HashMap` lookups; the map
keys are unique, which the well-formedness predicate records). -/
def alookup {α β : Type} [DecidableEq α] (k : α) : List (α × β) → Option β
  | [] => none
  | p :: rest => if p.1 = k then some p.2 else alookup k rest

/-- Remove the first binding of a key (embedding of `HashMap::remove` on a
map with unique keys). -/
def aerase {α β : Type} [DecidableEq α] (k : α) : List (α × β) → List (α × β)
  | [] => []
  | p :: rest => if p.1 = k then rest else p :: aerase k rest

/-- Increment a per-id counter stored in an association list. -/
def bumpRef (cid : Nat) : List (Nat × Nat) → List (Nat × Nat)
  | [] => [(cid, 1)]
  | p :: rest => if p.1 = cid then (p.1, p.2 + 1) :: rest else p :: bumpRef cid rest

/-- Global state of the subsystem around the `CACHE` map of src/src/image.rs.
Each live cell (the target of one `Arc<Inner>`) gets a numeric id; `heap`
maps ids to cells, `entries` embeds `CACHE: HashMap<Key, LoadContext>` as a
map from keys to cell ids, `extRef` counts, per id, the `Arc` clones held
outside the cache map (background task, ReadyImage, UI consumers), and
`nextId` supplies fresh ids. `Arc::try_unwrap` on the reference removed from
the map succeeds exactly when the external count of that id is zero. -/
structure CacheState where
  heap : List (Nat × Inner)
  extRef : List (Nat × Nat)
  entries : List (Key × Nat)
  nextId : Nat
  deriving DecidableEq, Repr

/-- Number of `Arc` references to cell `cid` held outside the cache map. -/
def extCount (s : CacheState) (cid : Nat) : Nat :=
  (alookup cid s.extRef).getD 0

/-- Result of one `get_context` call: the updated global state, the id of
the returned cell, and the background tasks spawned during the call (each
recorded as the key and cell id passed to `Background::start_loading_image`). -/
structure GetResult where
  cache : CacheState
  ctxId : Nat
  spawned : List (Key × Nat)
  deriving DecidableEq, Repr

/-- From `get_context` in src/src/image.rs, run under the single `CACHE`
lock. Occupied entry: clone the stored `LoadContext` (one more external
reference) and return it; nothing is spawned. Vacant entry: create a fresh
default cell (`Loading`, access time = now), hand one clone to
`bg.start_loading_image` together with the key, insert the context into the
map, and return one more clone — so the fresh cell has two external
references (task and caller) besides the map slot. -/
def get_context (s : CacheState) (key : Key) (now : Nat) : GetResult :=
  match alookup key s.entries with
  | some cid =>
    ⟨{ s with extRef := bumpRef cid s.extRef }, cid, []⟩
  | none =>
    let cid := s.nextId
    ⟨{ heap := (cid, ⟨.Loading, now⟩) :: s.heap,
       extRef := (cid, 2) :: s.extRef,
       entries := (key, cid) :: s.entries,
       nextId := s.nextId + 1 }, cid, [(key, cid)]⟩

/-- Staleness test of the scan loop in `cleanup` (src/src/image.rs): the
elapsed time since the last access of the cell of `cid` exceeds
`Duration::from_secs(60)`. Ids without a cell never occur under the
well-formedness predicate and are treated as not stale. -/
def isStale (s : CacheState) (now : Nat) (cid : Nat) : Bool :=
  match alookup cid s.heap with
  | some c => decide (60 < now - c.last_access)
  | none => false

/-- First loop of `cleanup`: collect the keys of all stale entries. -/
def staleKeys (s : CacheState) (now : Nat) : List Key :=
  (s.entries.filter (fun kv => isStale s now kv.2)).map (fun kv => kv.1)

/-- Body of the second loop of `cleanup` for one collected key: remove the
entry from the map (`write.remove(&key).unwrap()`; the collected keys are
always present, so the lookup-miss branch is dead and leaves the state
unchanged), then `Arc::try_unwrap` the removed reference. If other holders
remain (external count nonzero) the attempt fails: the reference is dropped,
the cell itself survives for its other holders, and nothing is freed. If the
cache held the sole reference the cell is consumed (removed from the heap)
and, when its state is `Loaded(id)`, the external `frame.free_texture` is
called with exactly that handle (the returned list records the calls). -/
def cleanupKey (s : CacheState) (k : Key) : CacheState × List TextureId :=
  match alookup k s.entries with
  | none => (s, [])
  | some cid =>
    if extCount s cid = 0 then
      match alookup cid s.heap with
      | some c =>
        ({ s with entries := aerase k s.entries, heap := aerase cid s.heap },
          c.state.as_texture.toList)
      | none =>
        ({ s with entries := aerase k s.entries, heap := aerase cid s.heap }, [])
    else
      ({ s with entries := aerase k s.entries }, [])

/-- Second loop of `cleanup`: process the collected keys in order,
accumulating the deallocator calls. -/
def cleanupLoop : CacheState → List Key → CacheState × List TextureId
  | s, [] => (s, [])
  | s, k :: ks =>
    let r := cleanupKey s k
    let rest := cleanupLoop r.1 ks
    (rest.1, r.2 ++ rest.2)

/-- From `cleanup` in src/src/image.rs: scan for stale keys under the cache
lock, then remove and reclaim them. Returns the final state and the list of
handles passed to the external texture deallocator. -/
def cleanup (s : CacheState) (now : Nat) : CacheState × List TextureId :=
  cleanupLoop s (staleKeys s now)

/-- Well-formedness of the embedded global state, all of it guaranteed by
the source: map keys are unique (`HashMap`), distinct keys hold distinct
`Arc`s (each vacant insert creates a fresh cell), cell ids are unique, every
map entry points at a live cell, and distinct live cells never hold the same
texture handle (each handle comes from a distinct allocator call). Stated
over list membership so that it is decidable on concrete states. -/
def WF (s : CacheState) : Prop :=
  s.entries.Pairwise (fun a b => a.1 ≠ b.1) ∧
  s.entries.Pairwise (fun a b => a.2 ≠ b.2) ∧
  s.heap.Pairwise (fun a b => a.1 ≠ b.1) ∧
  (∀ kv ∈ s.entries, (alookup kv.2 s.heap).isSome = true) ∧
  (∀ a ∈ s.heap, ∀ b ∈ s.heap,
    a.2.state.as_texture.isSome = true → a.2.state = b.2.state → a.1 = b.1)

/-! Association-list lemmas used by the cache theorems. -/

theorem alookup_mem {α β : Type} [DecidableEq α] {k : α} {v : β} :
    ∀ {l : List (α × β)}, alookup k l = some v → (k, v) ∈ l := by
  intro l
  induction l with
  | nil => intro h; simp [alookup] at h
  | cons p rest ih =>
    intro h
    by_cases hp : p.1 = k
    · simp only [alookup, if_pos hp, Option.some_inj] at h
      subst h
      subst hp
      exact List.mem_cons_self _ _
    · simp only [alookup, if_neg hp] at h
      exact List.mem_cons_of_mem _ (ih h)

theorem alookup_isSome_of_mem {α β : Type} [DecidableEq α] {k : α} {v : β} :
    ∀ {l : List (α × β)}, (k, v) ∈ l → (alookup k l).isSome = true := by
  intro l
  induction l with
  | nil => intro h; simp at h
  | cons p rest ih =>
    intro h
    by_cases hp : p.1 = k
    · simp [alookup, hp]
    · rcases List.mem_cons.1 h with h1 | h1
      · exact absurd (by rw [← h1]) hp
      · simpa [alookup, hp] using ih h1

theorem alookup_of_mem_distinct {α β : Type} [DecidableEq α] {k : α} {v : β} :
    ∀ {l : List (α × β)}, l.Pairwise (fun a b => a.1 ≠ b.1) → (k, v) ∈ l →
      alookup k l = some v := by
  intro l
  induction l with
  | nil => intro _ h; simp at h
  | cons p rest ih =>
    intro hd h
    rcases List.mem_cons.1 h with h1 | h1
    · rw [← h1]
      simp [alookup]
    · have hp : p.1 ≠ k := by
        intro he
        exact (List.pairwise_cons.1 hd).1 (k, v) h1 he
      simp [alookup, hp]
      exact ih (List.pairwise_cons.1 hd).2 h1

theorem alookup_aerase_ne {α β : Type} [DecidableEq α] {k k' : α} (h : k' ≠ k) :
    ∀ (l : List (α × β)), alookup k' (aerase k l) = alookup k' l := by
  intro l
  induction l with
  | nil => rfl
  | cons p rest ih =>
    rw [aerase]
    by_cases hp : p.1 = k
    · rw [if_pos hp]
      have hp' : p.1 ≠ k' := by rw [hp]; exact fun he => h he.symm
      conv_rhs => rw [alookup]
      rw [if_neg hp']
    · rw [if_neg hp]
      simp only [alookup]
      rw [ih]

theorem alookup_aerase_self {α β : Type} [DecidableEq α] {k : α} :
    ∀ {l : List (α × β)}, l.Pairwise (fun a b => a.1 ≠ b.1) →
      alookup k (aerase k l) = none := by
  intro l
  induction l with
  | nil => intro _; rfl
  | cons p rest ih =>
    intro hd
    by_cases hp : p.1 = k
    · simp only [aerase, if_pos hp]
      cases hk : alookup k rest with
      | none => rfl
      | some v =>
        have hm := alookup_mem hk
        have := (List.pairwise_cons.1 hd).1 (k, v) hm
        exact absurd hp this
    · simp only [aerase, if_neg hp, alookup]
      exact ih (List.pairwise_cons.1 hd).2

theorem aerase_sublist {α β : Type} [DecidableEq α] (k : α) :
    ∀ (l : List (α × β)), List.Sublist (aerase k l) l := by
  intro l
  induction l with
  | nil => exact List.Sublist.refl _
  | cons p rest ih =>
    by_cases hp : p.1 = k
    · simp only [aerase, if_pos hp]
      exact (List.Sublist.refl rest).cons p
    · simp only [aerase, if_neg hp]
      exact ih.cons₂ p

theorem alookup_none_of_sublist {α β : Type} [DecidableEq α] {k : α}
    {l' l : List (α × β)} (hs : List.Sublist l' l) (h : alookup k l = none) :
    alookup k l' = none := by
  cases hk : alookup k l' with
  | none => rfl
  | some v =>
    have hm := hs.subset (alookup_mem hk)
    have := alookup_isSome_of_mem hm
    rw [h] at this
    simp at this

theorem alookup_some_of_sublist {α β : Type} [DecidableEq α] {k : α} {v : β}
    {l' l : List (α × β)} (hs : List.Sublist l' l)
    (hd : l.Pairwise (fun a b => a.1 ≠ b.1)) (h : alookup k l' = some v) :
    alookup k l = some v :=
  alookup_of_mem_distinct hd (hs.subset (alookup_mem h))

/-! Lemmas about event sequences on one cell. -/

theorem runEvents_append (c : Inner) (l1 l2 : List CellEvent) :
    runEvents c (l1 ++ l2) = runEvents (runEvents c l1) l2 := by
  simp [runEvents, List.foldl_append]

theorem runEvents_state_of_no_write (c : Inner) :
    ∀ (es : List CellEvent), (es.filter CellEvent.isWrite).length = 0 →
      (runEvents c es).state = c.state := by
  intro es
  induction es generalizing c with
  | nil => intro _; rfl
  | cons e rest ih =>
    intro h
    cases e with
    | read now =>
      simp only [List.filter_cons, CellEvent.isWrite] at h
      have := ih (c.accessed now) h
      simpa [runEvents, Inner.accessed, applyEvent] using this
    | taskError e now => simp [List.filter_cons, CellEvent.isWrite] at h
    | finalize id now => simp [List.filter_cons, CellEvent.isWrite] at h

/-- C2: monotonic lifecycle. Starting from the fresh `Loading` cell, run any
sequence of subsystem operations respecting the single-writer discipline the
source imposes (`SingleWriter`). If the lifecycle tag is terminal after the
prefix `pre`, then after any further operations (`mid`, an arbitrary prefix
of the remainder `post`) the tag is exactly the same: it never reverts to
`Loading` and never switches to the other terminal state, so every later
snapshot reports the same terminal state. -/
theorem loadstate_monotonic (c : Inner) (pre post mid : List CellEvent)
    (hinit : c.state = .Loading)
    (hvalid : SingleWriter (pre ++ post))
    (hmid : List.IsPrefix mid post)
    (hterm : (runEvents c pre).state.isTerminal = true) :
    (runEvents c (pre ++ mid)).state = (runEvents c pre).state := by
  have hw1 : 1 ≤ (pre.filter CellEvent.isWrite).length := by
    by_contra hlt
    push_neg at hlt
    have h0 : (pre.filter CellEvent.isWrite).length = 0 := by omega
    have hs := runEvents_state_of_no_write c pre h0
    rw [hs, hinit] at hterm
    simp [LoadingStatus.isTerminal] at hterm
  have hvalid' : (pre.filter CellEvent.isWrite).length +
      (post.filter CellEvent.isWrite).length ≤ 1 := by
    have := hvalid
    rw [SingleWriter, List.filter_append, List.length_append] at this
    exact this
  have hpost0 : (post.filter CellEvent.isWrite).length = 0 := by omega
  have hmid0 : (mid.filter CellEvent.isWrite).length = 0 := by
    have hsub := (hmid.sublist).filter CellEvent.isWrite
    have := hsub.length_le
    omega
  rw [runEvents_append]
  exact runEvents_state_of_no_write _ mid hmid0

/-- C2 witness: a concrete run in which the task reports an error and a
later snapshot still sees exactly that error state. -/
theorem loadstate_monotonic_witness :
    (runEvents ⟨.Loading, 0⟩ ([.taskError "boom" 1] ++ [.read 2])).state =
      (runEvents ⟨.Loading, 0⟩ [.taskError "boom" 1]).state :=
  loadstate_monotonic ⟨.Loading, 0⟩ [.taskError "boom" 1] [.read 2] [.read 2]
    rfl (by simp [SingleWriter, CellEvent.isWrite]) (List.prefix_refl _) (by decide)

/-- C7: every snapshot read (`get_texture_id`, `get_error`) and every
mutation (`set_error`, `set_texture_id`) stores the instant of the call into
the last-access cell; since the monotone clock never yields an instant below
a previously stored one (hypothesis `h`), the updated timestamp is the call
instant and is ≥ the timestamp held before the call. -/
theorem access_refresh (c : Inner) (now : Nat) (e : String) (id : TextureId)
    (h : c.last_access ≤ now) :
    ((c.get_texture_id now).1.last_access = now ∧
      c.last_access ≤ (c.get_texture_id now).1.last_access) ∧
    ((c.get_error now).1.last_access = now ∧
      c.last_access ≤ (c.get_error now).1.last_access) ∧
    ((c.set_error now e).last_access = now ∧
      c.last_access ≤ (c.set_error now e).last_access) ∧
    ((c.set_texture_id now id).last_access = now ∧
      c.last_access ≤ (c.set_texture_id now id).last_access) :=
  ⟨⟨rfl, h⟩, ⟨rfl, h⟩, ⟨rfl, h⟩, ⟨rfl, h⟩⟩

/-- C7 witness: the four operations on a concrete cell at a concrete later
instant. -/
theorem access_refresh_witness :
    ((Inner.get_texture_id ⟨.Loading, 3⟩ 5).1.last_access = 5 ∧
      3 ≤ (Inner.get_texture_id ⟨.Loading, 3⟩ 5).1.last_access) ∧
    ((Inner.get_error ⟨.Loading, 3⟩ 5).1.last_access = 5 ∧
      3 ≤ (Inner.get_error ⟨.Loading, 3⟩ 5).1.last_access) ∧
    ((Inner.set_error ⟨.Loading, 3⟩ 5 "e").last_access = 5 ∧
      3 ≤ (Inner.set_error ⟨.Loading, 3⟩ 5 "e").last_access) ∧
    ((Inner.set_texture_id ⟨.Loading, 3⟩ 5 .Egui).last_access = 5 ∧
      3 ≤ (Inner.set_texture_id ⟨.Loading, 3⟩ 5 .Egui).last_access) :=
  access_refresh ⟨.Loading, 3⟩ 5 "e" .Egui (by decide)

/-- C4: load-outcome reporting sequence of `load_image_async`. A fetch
failure writes `Error(message)` into the cell and produces no ReadyImage; a
decode failure writes `Error` with the "Could not decode image: " prefix and
produces no ReadyImage; a decode success produces the ReadyImage carrying
the key, the cell reference and the converted pixel buffer, leaves the cell
untouched, and in particular leaves the lifecycle tag at `Loading`. -/
theorem load_outcome_reporting (key : Key) (c : Inner) (now : Nat)
    (lwf : List Nat → ImageFormat → Except String DecodedImage)
    (lfm : List Nat → Except String DecodedImage) :
    (∀ e, load_image_async key c now (.error e) lwf lfm =
      (c.set_error now e, none)) ∧
    (∀ bytes format e, decodeOf lwf lfm bytes format = .error e →
      load_image_async key c now (.ok (bytes, format)) lwf lfm =
        (c.set_error now ("Could not decode image: " ++ e), none)) ∧
    (∀ bytes format img, decodeOf lwf lfm bytes format = .ok img →
      load_image_async key c now (.ok (bytes, format)) lwf lfm =
        (c, some ⟨key, c,
          EpiImage.from_rgba_unmultiplied [img.width, img.height] img.rgba⟩) ∧
      (c.state = .Loading →
        (load_image_async key c now (.ok (bytes, format)) lwf lfm).1.state =
          .Loading)) := by
  refine ⟨fun e => rfl, fun bytes format e hd => ?_, fun bytes format img hd => ?_⟩
  · simp [load_image_async, hd]
  · refine ⟨by simp [load_image_async, hd], fun hl => ?_⟩
    simp [load_image_async, hd, hl]

/-- C4 witness: a concrete codec oracle exercising the decode-failure and
decode-success branches. -/
theorem load_outcome_reporting_witness :
    load_image_async (Key.Https "u") ⟨.Loading, 0⟩ 4 (.ok ([], none))
        (fun _ _ => .error "fmt")
        (fun bytes => if bytes.length = 0 then .error "bad" else .ok ⟨1, 1, [7]⟩) =
      (Inner.set_error ⟨.Loading, 0⟩ 4 ("Could not decode image: " ++ "bad"), none) ∧
    load_image_async (Key.Https "u") ⟨.Loading, 0⟩ 4 (.ok ([9], none))
        (fun _ _ => .error "fmt")
        (fun bytes => if bytes.length = 0 then .error "bad" else .ok ⟨1, 1, [7]⟩) =
      (⟨.Loading, 0⟩, some ⟨Key.Https "u", ⟨.Loading, 0⟩,
        EpiImage.from_rgba_unmultiplied [1, 1] [7]⟩) := by
  have h := load_outcome_reporting (Key.Https "u") ⟨.Loading, 0⟩ 4
    (fun _ _ => .error "fmt")
    (fun bytes => if bytes.length = 0 then .error "bad" else .ok ⟨1, 1, [7]⟩)
  exact ⟨h.2.1 [] none "bad" rfl, (h.2.2 [9] none ⟨1, 1, [7]⟩ rfl).1⟩

/-- C5: finalize postcondition of `ToUIImage::finish_load`. Under the
interface contract that the external allocator hands back a user-variant
handle (which `epi::Frame::alloc_texture` always does; the non-User variant
is claim C10), and whatever the runtime log level, the allocator is called
exactly once with the pixel buffer of the ReadyImage, the cell is
overwritten with `Loaded(handle)` for exactly the returned handle, and a
later `get_texture_id` snapshot yields `some handle`. -/
theorem finish_load_postcondition (t : ToUIImage) (alloc : EpiImage → TextureId)
    (lg : Bool) (now now2 : Nat) (n : Nat) (h : alloc t.image = .User n) :
    (t.finish_load alloc lg now).allocCalls = [t.image] ∧
    (t.finish_load alloc lg now).context =
      some (t.context.set_texture_id now (alloc t.image)) ∧
    (t.context.set_texture_id now (alloc t.image)).state = .Loaded (alloc t.image) ∧
    ((t.context.set_texture_id now (alloc t.image)).get_texture_id now2).2 =
      some (alloc t.image) := by
  cases lg <;> refine ⟨?_, ?_, rfl, rfl⟩ <;> simp [ToUIImage.finish_load, h]

/-- C5 witness: a concrete finalize with an allocator returning `User 5`,
with info logging enabled. -/
theorem finish_load_postcondition_witness :
    (ToUIImage.finish_load ⟨Key.Https "u", ⟨.Loading, 0⟩, ⟨[1, 1], [7]⟩⟩
      (fun _ => .User 5) true 9).allocCalls = [⟨[1, 1], [7]⟩] ∧
    (ToUIImage.finish_load ⟨Key.Https "u", ⟨.Loading, 0⟩, ⟨[1, 1], [7]⟩⟩
      (fun _ => .User 5) true 9).context =
      some (Inner.set_texture_id ⟨.Loading, 0⟩ 9 (.User 5)) ∧
    (Inner.set_texture_id ⟨.Loading, 0⟩ 9 (.User 5)).state = .Loaded (.User 5) ∧
    ((Inner.set_texture_id ⟨.Loading, 0⟩ 9 (.User 5)).get_texture_id 11).2 =
      some (.User 5) :=
  finish_load_postcondition ⟨Key.Https "u", ⟨.Loading, 0⟩, ⟨[1, 1], [7]⟩⟩
    (fun _ => .User 5) true 9 11 5 rfl

/-- C10 counterexample: with info logging disabled — the default, since
this repository installs no logger anywhere and the `log` crate's
`max_level()` then reports `Off` — `finish_load` never evaluates the
arguments of `log::info!`, so a non-User handle does not hit the
`unreachable!` arm: the call completes normally and writes `Loaded(Egui)`
into the cell. This refutes the original claim that finalize panics
whenever the allocator returns a non-User handle. -/
theorem finish_load_no_panic_logging_off :
    (ToUIImage.finish_load ⟨Key.Https "u", ⟨.Loading, 0⟩, ⟨[1, 1], [7]⟩⟩
      (fun _ => .Egui) false 3).context =
      some (Inner.set_texture_id ⟨.Loading, 0⟩ 3 .Egui) :=
  rfl

/-- C10 (amended): the `unreachable!` sits inside an argument of
`log::info!`, which the log crate evaluates only when info-level logging is
enabled at runtime. With logging enabled, a non-User handle makes
`finish_load` hit the unreachable arm and abort before the cell is written;
with logging disabled the call completes normally for every handle,
writing `Loaded(handle)` even for a non-User one; and for every allocator
returning a User-variant handle the unreachable arm is never taken and
`finish_load` completes normally under either log state. -/
theorem finish_load_log_guard (t : ToUIImage) (alloc : EpiImage → TextureId)
    (now : Nat) :
    ((∀ n, alloc t.image ≠ .User n) →
      (t.finish_load alloc true now).context = none) ∧
    ((t.finish_load alloc false now).context =
      some (t.context.set_texture_id now (alloc t.image))) ∧
    (∀ n, alloc t.image = .User n → ∀ lg,
      (t.finish_load alloc lg now).context =
        some (t.context.set_texture_id now (.User n))) := by
  refine ⟨?_, ?_, ?_⟩
  · intro h
    cases ha : alloc t.image with
    | Egui => simp [ToUIImage.finish_load, ha]
    | User n => exact absurd ha (h n)
  · simp [ToUIImage.finish_load]
  · intro n h lg
    cases lg <;> simp [ToUIImage.finish_load, h]

/-- C10 witness: with logging enabled an allocator returning the
internally-managed variant makes finalize hit the unreachable branch; one
returning `User 2` completes under either log state. -/
theorem finish_load_log_guard_witness :
    (ToUIImage.finish_load ⟨Key.Https "u", ⟨.Loading, 0⟩, ⟨[1, 1], [7]⟩⟩
      (fun _ => .Egui) true 3).context = none ∧
    (ToUIImage.finish_load ⟨Key.Https "u", ⟨.Loading, 0⟩, ⟨[1, 1], [7]⟩⟩
      (fun _ => .User 2) true 3).context =
      some (Inner.set_texture_id ⟨.Loading, 0⟩ 3 (.User 2)) ∧
    (ToUIImage.finish_load ⟨Key.Https "u", ⟨.Loading, 0⟩, ⟨[1, 1], [7]⟩⟩
      (fun _ => .User 2) false 3).context =
      some (Inner.set_texture_id ⟨.Loading, 0⟩ 3 (.User 2)) := by
  refine ⟨(finish_load_log_guard ⟨Key.Https "u", ⟨.Loading, 0⟩, ⟨[1, 1], [7]⟩⟩
    (fun _ => .Egui) 3).1 ?_,
    (finish_load_log_guard ⟨Key.Https "u", ⟨.Loading, 0⟩, ⟨[1, 1], [7]⟩⟩
      (fun _ => .User 2) 3).2.2 2 rfl true,
    (finish_load_log_guard ⟨Key.Https "u", ⟨.Loading, 0⟩, ⟨[1, 1], [7]⟩⟩
      (fun _ => .User 2) 3).2.2 2 rfl false⟩
  intro n h
  exact TextureId.noConfusion h

/-- C8: fetch error classification. In the reqwest build a connection
failure produces the message "Could not connect to server: cause" and a body
transfer failure "Could not download image: cause"; in the surf build every
transport failure produces "Could not download image: cause". Feeding either
failure into the task body leaves the cell in the `Error` state, so
`get_error` returns the classified message and `get_texture_id` returns
`none`. -/
theorem fetch_error_classification (e : String) (c : Inner) (now now2 : Nat)
    (key : Key) (lwf : List Nat → ImageFormat → Except String DecodedImage)
    (lfm : List Nat → Except String DecodedImage) :
    https_get_reqwest (.connectError e) =
      .error ("Could not connect to server: " ++ e) ∧
    https_get_reqwest (.bodyError e) =
      .error ("Could not download image: " ++ e) ∧
    https_get_surf (.failure e) = .error ("Could not download image: " ++ e) ∧
    (((load_image_async key c now (https_get_reqwest (.connectError e))
        lwf lfm).1.get_error now2).2 =
      some ("Could not connect to server: " ++ e) ∧
      ((load_image_async key c now (https_get_reqwest (.connectError e))
        lwf lfm).1.get_texture_id now2).2 = none) ∧
    (((load_image_async key c now (https_get_reqwest (.bodyError e))
        lwf lfm).1.get_error now2).2 =
      some ("Could not download image: " ++ e) ∧
      ((load_image_async key c now (https_get_reqwest (.bodyError e))
        lwf lfm).1.get_texture_id now2).2 = none) :=
  ⟨rfl, rfl, rfl, ⟨rfl, rfl⟩, ⟨rfl, rfl⟩⟩

/-- C9 counterexample: `ToUIImage` derives `Clone` (src/src/image.rs), so a
ReadyImage can be duplicated. The clone equals the original and shares the
same cell, `finish_load` succeeds on the original and on the clone, the
allocator runs once per call (twice in total), and the clone can be
finalized again even after its shared cell is already `Loaded`, overwriting
the handle — so the finalize step is not restricted to at most one
invocation per ReadyImage by the type. -/
theorem ready_image_duplicable :
    ToUIImage.clone ⟨Key.Https "u", ⟨.Loading, 0⟩, ⟨[1, 1], [7]⟩⟩ =
      ⟨Key.Https "u", ⟨.Loading, 0⟩, ⟨[1, 1], [7]⟩⟩ ∧
    (ToUIImage.finish_load ⟨Key.Https "u", ⟨.Loading, 0⟩, ⟨[1, 1], [7]⟩⟩
      (fun _ => .User 1) true 3).context.isSome = true ∧
    (ToUIImage.finish_load
      (ToUIImage.clone ⟨Key.Https "u", ⟨.Loading, 0⟩, ⟨[1, 1], [7]⟩⟩)
      (fun _ => .User 1) true 4).context.isSome = true ∧
    (ToUIImage.finish_load ⟨Key.Https "u", ⟨.Loading, 0⟩, ⟨[1, 1], [7]⟩⟩
        (fun _ => .User 1) true 3).allocCalls ++
      (ToUIImage.finish_load
        (ToUIImage.clone ⟨Key.Https "u", ⟨.Loading, 0⟩, ⟨[1, 1], [7]⟩⟩)
        (fun _ => .User 1) true 4).allocCalls =
      [⟨[1, 1], [7]⟩, ⟨[1, 1], [7]⟩] ∧
    (ToUIImage.finish_load ⟨Key.Https "u", ⟨.Loaded (.User 1), 3⟩, ⟨[1, 1], [7]⟩⟩
      (fun _ => .User 2) true 4).context = some ⟨.Loaded (.User 2), 4⟩ :=
  ⟨rfl, rfl, rfl, rfl, rfl⟩

/-- C9 (amended): one `finish_load` invocation consumes its ReadyImage by
value and calls the allocator exactly once; but the type derives `Clone`, so
it can be duplicated (the clone sharing the same cell), and at-most-once
finalization per load is a protocol obligation of the host loop (one
`finish_load` per delivered message, src/src/lib.rs), not a guarantee of the
type. -/
theorem ready_image_single_call (t : ToUIImage) (alloc : EpiImage → TextureId)
    (lg : Bool) (now : Nat) :
    (t.finish_load alloc lg now).allocCalls = [t.image] ∧
    ToUIImage.clone t = t ∧
    (ToUIImage.clone t).context = t.context := by
  refine ⟨?_, rfl, rfl⟩
  cases lg <;> cases h : alloc t.image <;> simp [ToUIImage.finish_load, h]

/-- C1: deduplication of loads in `get_context`. Occupied entry: the call
returns the stored cell id (a fresh clone of the same shared LoadState, one
more external reference), spawns nothing, and leaves the map and the heap
untouched. Vacant entry: the call creates a fresh `Loading` cell stamped
with the call instant, spawns exactly one background task carrying the key
and that cell, inserts the cell under the key and returns it (two external
references: task and caller); any subsequent call for the same key then hits
the occupied branch, returning the same cell and spawning nothing — at most
one load per key is ever in flight. -/
theorem get_context_dedup (s : CacheState) (key : Key) (now now2 : Nat) :
    (∀ cid, alookup key s.entries = some cid →
      (get_context s key now).ctxId = cid ∧
      (get_context s key now).spawned = [] ∧
      (get_context s key now).cache.entries = s.entries ∧
      (get_context s key now).cache.heap = s.heap ∧
      (get_context s key now).cache.extRef = bumpRef cid s.extRef) ∧
    (alookup key s.entries = none →
      (get_context s key now).spawned =
        [(key, (get_context s key now).ctxId)] ∧
      alookup key (get_context s key now).cache.entries =
        some (get_context s key now).ctxId ∧
      alookup (get_context s key now).ctxId (get_context s key now).cache.heap =
        some ⟨.Loading, now⟩ ∧
      extCount (get_context s key now).cache (get_context s key now).ctxId = 2 ∧
      (get_context (get_context s key now).cache key now2).ctxId =
        (get_context s key now).ctxId ∧
      (get_context (get_context s key now).cache key now2).spawned = []) := by
  constructor
  · intro cid h
    simp [get_context, h]
  · intro h
    simp [get_context, h, extCount, alookup]

/-- C1 witness: on an empty cache the first call for a key spawns exactly
one task for that key and cell; the second call spawns nothing and returns
the same cell id. -/
theorem get_context_dedup_witness :
    (get_context ⟨[], [], [], 0⟩ (Key.Https "a") 5).spawned =
      [(Key.Https "a", (get_context ⟨[], [], [], 0⟩ (Key.Https "a") 5).ctxId)] ∧
    (get_context (get_context ⟨[], [], [], 0⟩ (Key.Https "a") 5).cache
      (Key.Https "a") 6).ctxId =
      (get_context ⟨[], [], [], 0⟩ (Key.Https "a") 5).ctxId ∧
    (get_context (get_context ⟨[], [], [], 0⟩ (Key.Https "a") 5).cache
      (Key.Https "a") 6).spawned = [] := by
  have h := (get_context_dedup ⟨[], [], [], 0⟩ (Key.Https "a") 5 6).2 rfl
  exact ⟨h.1, h.2.2.2.2.1, h.2.2.2.2.2⟩

/-! Lemmas about one step of the cleanup removal loop. -/

theorem cleanupKey_extRef (s : CacheState) (k : Key) :
    (cleanupKey s k).1.extRef = s.extRef := by
  unfold cleanupKey
  split
  · rfl
  · split
    · split <;> rfl
    · rfl

theorem cleanupKey_extCount (s : CacheState) (k : Key) (cid : Nat) :
    extCount (cleanupKey s k).1 cid = extCount s cid := by
  unfold extCount
  rw [cleanupKey_extRef]

theorem cleanupKey_entries_sub (s : CacheState) (k : Key) :
    List.Sublist (cleanupKey s k).1.entries s.entries := by
  unfold cleanupKey
  split
  · exact List.Sublist.refl _
  · split
    · split <;> exact aerase_sublist _ _
    · exact aerase_sublist _ _

theorem cleanupKey_heap_sub (s : CacheState) (k : Key) :
    List.Sublist (cleanupKey s k).1.heap s.heap := by
  unfold cleanupKey
  split
  · exact List.Sublist.refl _
  · split
    · split <;> exact aerase_sublist _ _
    · exact List.Sublist.refl _

theorem cleanupKey_lookup_ne (s : CacheState) {k k' : Key} (h : k' ≠ k) :
    alookup k' (cleanupKey s k).1.entries = alookup k' s.entries := by
  unfold cleanupKey
  split
  · rfl
  · split
    · split <;> exact alookup_aerase_ne h _
    · exact alookup_aerase_ne h _

theorem cleanupKey_lookup_self (s : CacheState) (k : Key)
    (hd : s.entries.Pairwise (fun a b => a.1 ≠ b.1)) :
    alookup k (cleanupKey s k).1.entries = none := by
  unfold cleanupKey
  split
  · next heq => exact heq
  · split
    · split <;> exact alookup_aerase_self hd
    · exact alookup_aerase_self hd

theorem cleanupKey_heap_lookup_other (s : CacheState) (k : Key) (cid : Nat)
    (h : ∀ cid', alookup k s.entries = some cid' →
      cid' ≠ cid ∨ extCount s cid' ≠ 0) :
    alookup cid (cleanupKey s k).1.heap = alookup cid s.heap := by
  unfold cleanupKey
  split
  · rfl
  · next cid' heq =>
    split
    · next hc =>
      have hne : cid ≠ cid' := by
        rcases h cid' heq with h1 | h1
        · exact fun he => h1 he.symm
        · exact absurd hc h1
      split <;> exact alookup_aerase_ne hne _
    · rfl

theorem cleanupKey_heap_lookup_self (s : CacheState) (k : Key) (cid : Nat)
    (heq : alookup k s.entries = some cid) (hc : extCount s cid = 0)
    (hdh : s.heap.Pairwise (fun a b => a.1 ≠ b.1)) :
    alookup cid (cleanupKey s k).1.heap = none := by
  unfold cleanupKey
  simp only [heq]
  rw [if_pos hc]
  split <;> exact alookup_aerase_self hdh

theorem cleanupKey_freed_sub (s : CacheState) (k : Key) {h : TextureId}
    (hmem : h ∈ (cleanupKey s k).2) :
    ∃ cid c, alookup k s.entries = some cid ∧ extCount s cid = 0 ∧
      alookup cid s.heap = some c ∧ c.state.as_texture = some h := by
  unfold cleanupKey at hmem
  split at hmem
  · simp at hmem
  · next cid heq =>
    split at hmem
    · next hc =>
      split at hmem
      · next c hh =>
        refine ⟨cid, c, heq, hc, hh, ?_⟩
        cases ht : c.state.as_texture with
        | none => rw [ht] at hmem; simp [Option.toList] at hmem
        | some id =>
          rw [ht] at hmem
          simp [Option.toList] at hmem
          rw [hmem]
      · simp at hmem
    · simp at hmem

theorem cleanupKey_freed_self (s : CacheState) (k : Key) (cid : Nat) (c : Inner)
    (heq : alookup k s.entries = some cid) (hc : extCount s cid = 0)
    (hh : alookup cid s.heap = some c) :
    (cleanupKey s k).2 = c.state.as_texture.toList := by
  unfold cleanupKey
  simp only [heq]
  rw [if_pos hc]
  simp only [hh]

theorem cleanupKey_freed_short (s : CacheState) (k : Key) (h : TextureId) :
    (cleanupKey s k).2.count h ≤ 1 := by
  unfold cleanupKey
  split
  · simp
  · split
    · split
      · next c hh =>
        cases ht : c.state.as_texture with
        | none => simp [Option.toList]
        | some id =>
          simp only [Option.toList]
          exact List.count_le_length _ _
      · simp
    · simp

/-! Lemmas about the whole cleanup removal loop. -/

theorem cleanupLoop_extRef : ∀ (ks : List Key) (s : CacheState),
    (cleanupLoop s ks).1.extRef = s.extRef := by
  intro ks
  induction ks with
  | nil => intro s; rfl
  | cons k ks ih =>
    intro s
    show (cleanupLoop (cleanupKey s k).1 ks).1.extRef = s.extRef
    rw [ih, cleanupKey_extRef]

theorem cleanupLoop_extCount (ks : List Key) (s : CacheState) (cid : Nat) :
    extCount (cleanupLoop s ks).1 cid = extCount s cid := by
  unfold extCount
  rw [cleanupLoop_extRef]

theorem cleanupLoop_entries_sub : ∀ (ks : List Key) (s : CacheState),
    List.Sublist (cleanupLoop s ks).1.entries s.entries := by
  intro ks
  induction ks with
  | nil => intro s; exact List.Sublist.refl _
  | cons k ks ih =>
    intro s
    exact (ih (cleanupKey s k).1).trans (cleanupKey_entries_sub s k)

theorem cleanupLoop_heap_sub : ∀ (ks : List Key) (s : CacheState),
    List.Sublist (cleanupLoop s ks).1.heap s.heap := by
  intro ks
  induction ks with
  | nil => intro s; exact List.Sublist.refl _
  | cons k ks ih =>
    intro s
    exact (ih (cleanupKey s k).1).trans (cleanupKey_heap_sub s k)

theorem cleanupLoop_lookup_notin : ∀ (ks : List Key) (s : CacheState) (k : Key),
    k ∉ ks → alookup k (cleanupLoop s ks).1.entries = alookup k s.entries := by
  intro ks
  induction ks with
  | nil => intro s k _; rfl
  | cons k1 ks ih =>
    intro s k hk
    have hne : k ≠ k1 := fun he => hk (he ▸ List.mem_cons_self k1 ks)
    have hk2 : k ∉ ks := fun hm => hk (List.mem_cons_of_mem k1 hm)
    show alookup k (cleanupLoop (cleanupKey s k1).1 ks).1.entries = _
    rw [ih _ k hk2, cleanupKey_lookup_ne s hne]

theorem cleanupLoop_lookup_mem : ∀ (ks : List Key) (s : CacheState) (k : Key),
    s.entries.Pairwise (fun a b => a.1 ≠ b.1) → k ∈ ks →
    alookup k (cleanupLoop s ks).1.entries = none := by
  intro ks
  induction ks with
  | nil => intro s k _ hk; simp at hk
  | cons k1 ks ih =>
    intro s k hd hk
    by_cases he : k = k1
    · subst he
      have h1 : alookup k (cleanupKey s k).1.entries = none :=
        cleanupKey_lookup_self s k hd
      exact alookup_none_of_sublist (cleanupLoop_entries_sub ks _) h1
    · have hk2 : k ∈ ks := by
        rcases List.mem_cons.1 hk with h1 | h1
        · exact absurd h1 he
        · exact h1
      exact ih (cleanupKey s k1).1 k
        (hd.sublist (cleanupKey_entries_sub s k1)) hk2

theorem cleanupLoop_heap_lookup : ∀ (ks : List Key) (s : CacheState) (cid : Nat),
    s.entries.Pairwise (fun a b => a.1 ≠ b.1) →
    (∀ k' cid', k' ∈ ks → (k', cid') ∈ s.entries →
      cid' ≠ cid ∨ extCount s cid' ≠ 0) →
    alookup cid (cleanupLoop s ks).1.heap = alookup cid s.heap := by
  intro ks
  induction ks with
  | nil => intro s cid _ _; rfl
  | cons k1 ks ih =>
    intro s cid hd H
    have hstep : alookup cid (cleanupKey s k1).1.heap = alookup cid s.heap :=
      cleanupKey_heap_lookup_other s k1 cid
        (fun cid' heq => H k1 cid' (List.mem_cons_self _ _) (alookup_mem heq))
    have hrec : alookup cid (cleanupLoop (cleanupKey s k1).1 ks).1.heap =
        alookup cid (cleanupKey s k1).1.heap := by
      refine ih (cleanupKey s k1).1 cid (hd.sublist (cleanupKey_entries_sub s k1))
        (fun k' cid' hm hmem => ?_)
      have hmem2 : (k', cid') ∈ s.entries :=
        (cleanupKey_entries_sub s k1).subset hmem
      rcases H k' cid' (List.mem_cons_of_mem k1 hm) hmem2 with h1 | h1
      · exact Or.inl h1
      · refine Or.inr ?_
        rw [cleanupKey_extCount]
        exact h1
    show alookup cid (cleanupLoop (cleanupKey s k1).1 ks).1.heap = _
    rw [hrec, hstep]

theorem cleanupLoop_freed_sub : ∀ (ks : List Key) (s : CacheState) (h : TextureId),
    s.entries.Pairwise (fun a b => a.1 ≠ b.1) →
    s.heap.Pairwise (fun a b => a.1 ≠ b.1) →
    h ∈ (cleanupLoop s ks).2 →
    ∃ k cid c, k ∈ ks ∧ alookup k s.entries = some cid ∧ extCount s cid = 0 ∧
      alookup cid s.heap = some c ∧ c.state.as_texture = some h := by
  intro ks
  induction ks with
  | nil => intro s h _ _ hm; simp [cleanupLoop] at hm
  | cons k1 ks ih =>
    intro s h hde hdh hm
    rcases List.mem_append.1 hm with h1 | h1
    · rcases cleanupKey_freed_sub s k1 h1 with ⟨cid, c, heq, hc, hh, ht⟩
      exact ⟨k1, cid, c, List.mem_cons_self _ _, heq, hc, hh, ht⟩
    · rcases ih (cleanupKey s k1).1 h
        (hde.sublist (cleanupKey_entries_sub s k1))
        (hdh.sublist (cleanupKey_heap_sub s k1)) h1 with
        ⟨k, cid, c, hk, heq, hc, hh, ht⟩
      refine ⟨k, cid, c, List.mem_cons_of_mem k1 hk,
        alookup_some_of_sublist (cleanupKey_entries_sub s k1) hde heq, ?_,
        alookup_some_of_sublist (cleanupKey_heap_sub s k1) hdh hh, ht⟩
      rw [cleanupKey_extCount] at hc
      exact hc

theorem cleanupLoop_freed_mem : ∀ (ks : List Key) (s : CacheState) (k : Key)
    (cid : Nat) (c : Inner) (h : TextureId),
    k ∈ ks →
    alookup k s.entries = some cid →
    extCount s cid = 0 →
    alookup cid s.heap = some c →
    c.state = .Loaded h →
    (∀ k' cid', k' ∈ ks → k' ≠ k → (k', cid') ∈ s.entries → cid' ≠ cid) →
    h ∈ (cleanupLoop s ks).2 := by
  intro ks
  induction ks with
  | nil => intro s k cid c h hk; simp at hk
  | cons k1 ks ih =>
    intro s k cid c h hk heq hc hh hl hiso
    by_cases he : k1 = k
    · subst he
      have hfr : (cleanupKey s k1).2 = c.state.as_texture.toList :=
        cleanupKey_freed_self s k1 cid c heq hc hh
      refine List.mem_append.2 (Or.inl ?_)
      rw [hfr, hl]
      simp [LoadingStatus.as_texture, Option.toList]
    · have hk2 : k ∈ ks := by
        rcases List.mem_cons.1 hk with h1 | h1
        · exact absurd h1.symm he
        · exact h1
      refine List.mem_append.2 (Or.inr ?_)
      refine ih (cleanupKey s k1).1 k cid c h hk2 ?_ ?_ ?_ hl ?_
      · rw [cleanupKey_lookup_ne s (fun h2 => he h2.symm)]
        exact heq
      · rw [cleanupKey_extCount]
        exact hc
      · rw [cleanupKey_heap_lookup_other s k1 cid ?_]
        · exact hh
        · intro cid' heq'
          exact Or.inl
            (hiso k1 cid' (List.mem_cons_self _ _) he (alookup_mem heq'))
      · intro k' cid' hm hne hmem
        exact hiso k' cid' (List.mem_cons_of_mem k1 hm) hne
          ((cleanupKey_entries_sub s k1).subset hmem)

theorem cleanupLoop_freed_count : ∀ (ks : List Key) (s : CacheState) (h : TextureId),
    s.entries.Pairwise (fun a b => a.1 ≠ b.1) →
    s.heap.Pairwise (fun a b => a.1 ≠ b.1) →
    (∀ i j ci cj, alookup i s.heap = some ci → alookup j s.heap = some cj →
      ci.state.as_texture = some h → cj.state.as_texture = some h → i = j) →
    (cleanupLoop s ks).2.count h ≤ 1 := by
  intro ks
  induction ks with
  | nil => intro s h _ _ _; simp [cleanupLoop]
  | cons k1 ks ih =>
    intro s h hde hdh hinj
    have hde2 := hde.sublist (cleanupKey_entries_sub s k1)
    have hdh2 := hdh.sublist (cleanupKey_heap_sub s k1)
    have hinj2 : ∀ i j ci cj, alookup i (cleanupKey s k1).1.heap = some ci →
        alookup j (cleanupKey s k1).1.heap = some cj →
        ci.state.as_texture = some h → cj.state.as_texture = some h → i = j :=
      fun i j ci cj hi hj hti htj =>
        hinj i j ci cj (alookup_some_of_sublist (cleanupKey_heap_sub s k1) hdh hi)
          (alookup_some_of_sublist (cleanupKey_heap_sub s k1) hdh hj) hti htj
    show ((cleanupKey s k1).2 ++ (cleanupLoop (cleanupKey s k1).1 ks).2).count h ≤ 1
    rw [List.count_append]
    by_cases hm : h ∈ (cleanupKey s k1).2
    · have hz : (cleanupLoop (cleanupKey s k1).1 ks).2.count h = 0 := by
        rw [List.count_eq_zero]
        intro hmem
        rcases cleanupLoop_freed_sub ks (cleanupKey s k1).1 h hde2 hdh2 hmem with
          ⟨k, cid', c', hk, heq', hc', hh', ht'⟩
        rcases cleanupKey_freed_sub s k1 hm with ⟨cid, c, heq, hc, hh, ht⟩
        have hhs : alookup cid' s.heap = some c' :=
          alookup_some_of_sublist (cleanupKey_heap_sub s k1) hdh hh'
        have hij : cid' = cid := hinj cid' cid c' c hhs hh ht' ht
        have hnone : alookup cid (cleanupKey s k1).1.heap = none :=
          cleanupKey_heap_lookup_self s k1 cid heq hc hdh
        rw [hij, hnone] at hh'
        exact Option.noConfusion hh'
      have hle := cleanupKey_freed_short s k1 h
      omega
    · have hz : (cleanupKey s k1).2.count h = 0 := List.count_eq_zero.2 hm
      have hle := ih (cleanupKey s k1).1 h hde2 hdh2 hinj2
      omega

/-! Lemmas about the stale-key scan. -/

theorem as_texture_some : ∀ {st : LoadingStatus} {h : TextureId},
    st.as_texture = some h → st = .Loaded h := by
  intro st h ht
  cases st with
  | Loading => simp [LoadingStatus.as_texture] at ht
  | Loaded id =>
    simp only [LoadingStatus.as_texture, Option.some_inj] at ht
    rw [ht]
  | Error e => simp [LoadingStatus.as_texture] at ht

theorem isStale_eq (s : CacheState) (now cid : Nat) (c : Inner)
    (hh : alookup cid s.heap = some c) :
    isStale s now cid = decide (60 < now - c.last_access) := by
  unfold isStale
  simp only [hh]

theorem mem_staleKeys_of (s : CacheState) (now : Nat) {k : Key} {cid : Nat}
    (he : alookup k s.entries = some cid) (hst : isStale s now cid = true) :
    k ∈ staleKeys s now := by
  unfold staleKeys
  refine List.mem_map.2 ⟨(k, cid), ?_, rfl⟩
  exact List.mem_filter.2 ⟨alookup_mem he, hst⟩

theorem staleKeys_stale (s : CacheState) (now : Nat) {k : Key} {cid : Nat}
    (hde : s.entries.Pairwise (fun a b => a.1 ≠ b.1))
    (hk : k ∈ staleKeys s now) (he : alookup k s.entries = some cid) :
    isStale s now cid = true := by
  unfold staleKeys at hk
  rcases List.mem_map.1 hk with ⟨kv, hmem, hfst⟩
  rcases List.mem_filter.1 hmem with ⟨hmem2, hp⟩
  have hm2 : (k, kv.2) ∈ s.entries := by
    rw [← hfst]
    exact hmem2
  have hlk : alookup k s.entries = some kv.2 := alookup_of_mem_distinct hde hm2
  rw [he] at hlk
  have hcc : cid = kv.2 := Option.some_inj.1 hlk
  rw [hcc]
  exact hp

theorem not_mem_staleKeys (s : CacheState) (now : Nat) {k : Key} {cid : Nat}
    (hde : s.entries.Pairwise (fun a b => a.1 ≠ b.1))
    (he : alookup k s.entries = some cid) (hst : isStale s now cid = false) :
    k ∉ staleKeys s now := by
  intro hk
  have := staleKeys_stale s now hde hk he
  rw [hst] at this
  exact Bool.noConfusion this

/-- C6: staleness threshold. A cleanup pass at instant `now` keeps every
entry whose cell was accessed within the last 60 seconds, with the cell
itself unchanged, and removes from the map exactly the keys whose cell has
been idle for strictly more than 60 seconds. -/
theorem cleanup_staleness (s : CacheState) (now : Nat) (hwf : WF s) :
    (∀ k cid c, alookup k s.entries = some cid → alookup cid s.heap = some c →
      now - c.last_access ≤ 60 →
      alookup k (cleanup s now).1.entries = some cid ∧
      alookup cid (cleanup s now).1.heap = some c) ∧
    (∀ k cid c, alookup k s.entries = some cid → alookup cid s.heap = some c →
      60 < now - c.last_access →
      alookup k (cleanup s now).1.entries = none) := by
  obtain ⟨hde, hcd, hdh, hlive, hinj⟩ := hwf
  constructor
  · intro k cid c he hh hfresh
    have hstf : isStale s now cid = false := by
      rw [isStale_eq s now cid c hh]
      exact decide_eq_false (by omega)
    have hnot : k ∉ staleKeys s now := not_mem_staleKeys s now hde he hstf
    constructor
    · rw [cleanup, cleanupLoop_lookup_notin _ _ _ hnot]
      exact he
    · rw [cleanup, cleanupLoop_heap_lookup _ _ _ hde ?_]
      · exact hh
      · intro k2 cid2 hm hmem
        by_cases hne : k2 = k
        · subst hne
          exact absurd hm hnot
        · left
          have hmk : (k, cid) ∈ s.entries := alookup_mem he
          have hpne : (k2, cid2) ≠ (k, cid) :=
            fun hpe => hne (congrArg Prod.fst hpe)
          exact hcd.forall (fun _ _ hab => Ne.symm hab) hmem hmk hpne
  · intro k cid c he hh hstale
    have hst : isStale s now cid = true := by
      rw [isStale_eq s now cid c hh]
      exact decide_eq_true hstale
    have hk : k ∈ staleKeys s now := mem_staleKeys_of s now he hst
    rw [cleanup]
    exact cleanupLoop_lookup_mem _ _ _ hde hk

/-- Concrete cache used by the C6 witness: the entry for key "old" has been
idle for 100 seconds, the entry for key "new" for 10 seconds. -/
def staleSample : CacheState :=
  ⟨[(0, ⟨.Loading, 0⟩), (1, ⟨.Loading, 90⟩)], [],
    [(Key.Https "old", 0), (Key.Https "new", 1)], 2⟩

/-- C6 witness: at instant 100 the pass drops the idle entry and keeps the
recently used one with its cell unchanged. -/
theorem cleanup_staleness_witness :
    alookup (Key.Https "new") (cleanup staleSample 100).1.entries = some 1 ∧
    alookup 1 (cleanup staleSample 100).1.heap = some ⟨.Loading, 90⟩ ∧
    alookup (Key.Https "old") (cleanup staleSample 100).1.entries = none := by
  have h := cleanup_staleness staleSample 100 (by constructor <;> decide)
  refine ⟨(h.1 (Key.Https "new") 1 ⟨.Loading, 90⟩ rfl rfl (by decide)).1,
    (h.1 (Key.Https "new") 1 ⟨.Loading, 90⟩ rfl rfl (by decide)).2,
    h.2 (Key.Https "old") 0 ⟨.Loading, 0⟩ rfl rfl (by decide)⟩

/-- C3: safe eviction. Part one: a stale entry whose cell is still held
outside the cache (nonzero external count — a UI consumer or the in-flight
task) loses its key from the map (and the key is not restored), but its cell
survives in the heap unchanged (still usable by its holders) and the
deallocator is never invoked for its handle. Part two: a stale entry whose
cell the pass solely owns and whose state is `Loaded(h)` has the deallocator
invoked exactly once, with exactly `h`. Part three: every deallocator
invocation of the pass originates from a stale, solely-owned entry in the
`Loaded` state — so entries in `Loading` or `Error` state, and entries with
other holders, trigger zero deallocations. -/
theorem cleanup_safe_eviction (s : CacheState) (now : Nat) (hwf : WF s) :
    (∀ k cid, alookup k s.entries = some cid → isStale s now cid = true →
      extCount s cid ≠ 0 →
      alookup k (cleanup s now).1.entries = none ∧
      alookup cid (cleanup s now).1.heap = alookup cid s.heap ∧
      (∀ c h, alookup cid s.heap = some c → c.state = .Loaded h →
        (cleanup s now).2.count h = 0)) ∧
    (∀ k cid c h, alookup k s.entries = some cid → isStale s now cid = true →
      extCount s cid = 0 → alookup cid s.heap = some c → c.state = .Loaded h →
      (cleanup s now).2.count h = 1) ∧
    (∀ h, h ∈ (cleanup s now).2 →
      ∃ k cid c, alookup k s.entries = some cid ∧ isStale s now cid = true ∧
        extCount s cid = 0 ∧ alookup cid s.heap = some c ∧
        c.state = .Loaded h) := by
  obtain ⟨hde, hcd, hdh, hlive, hinj⟩ := hwf
  have hinjL : ∀ i j ci cj (h : TextureId), alookup i s.heap = some ci →
      alookup j s.heap = some cj → ci.state.as_texture = some h →
      cj.state.as_texture = some h → i = j := by
    intro i j ci cj h hi hj hti htj
    have hsi : ci.state = .Loaded h := as_texture_some hti
    have hsj : cj.state = .Loaded h := as_texture_some htj
    refine hinj (i, ci) (alookup_mem hi) (j, cj) (alookup_mem hj) ?_ ?_
    · rw [hti]
      rfl
    · rw [hsi, hsj]
  have hchar : ∀ h, h ∈ (cleanup s now).2 →
      ∃ k cid c, alookup k s.entries = some cid ∧ isStale s now cid = true ∧
        extCount s cid = 0 ∧ alookup cid s.heap = some c ∧
        c.state = .Loaded h := by
    intro h hm
    rw [cleanup] at hm
    rcases cleanupLoop_freed_sub (staleKeys s now) s h hde hdh hm with
      ⟨k, cid, c, hk, he, hc, hh, ht⟩
    exact ⟨k, cid, c, he, staleKeys_stale s now hde hk he, hc, hh,
      as_texture_some ht⟩
  refine ⟨?_, ?_, hchar⟩
  · intro k cid he hst hext
    have hk : k ∈ staleKeys s now := mem_staleKeys_of s now he hst
    refine ⟨?_, ?_, ?_⟩
    · rw [cleanup]
      exact cleanupLoop_lookup_mem _ _ _ hde hk
    · rw [cleanup]
      refine cleanupLoop_heap_lookup _ _ _ hde ?_
      intro k2 cid2 hm2 hmem2
      by_cases hne : k2 = k
      · subst hne
        have hlk : alookup k2 s.entries = some cid2 :=
          alookup_of_mem_distinct hde hmem2
        rw [he] at hlk
        right
        rw [← Option.some_inj.1 hlk]
        exact hext
      · left
        have hpne : (k2, cid2) ≠ (k, cid) :=
          fun hpe => hne (congrArg Prod.fst hpe)
        exact hcd.forall (fun _ _ hab => Ne.symm hab) hmem2 (alookup_mem he) hpne
    · intro c h hh hl
      rw [List.count_eq_zero]
      intro hmem
      rcases hchar h hmem with ⟨k2, cid2, c2, he2, hst2, hc2, hh2, hl2⟩
      have hid : cid2 = cid := hinjL cid2 cid c2 c h hh2 hh
        (by rw [hl2]; rfl) (by rw [hl]; rfl)
      rw [hid] at hc2
      exact hext hc2
  · intro k cid c h he hst hc hh hl
    have hk : k ∈ staleKeys s now := mem_staleKeys_of s now he hst
    have hmem : h ∈ (cleanup s now).2 := by
      rw [cleanup]
      refine cleanupLoop_freed_mem _ _ k cid c h hk he hc hh hl ?_
      intro k2 cid2 hm2 hne hmem2
      have hpne : (k2, cid2) ≠ (k, cid) :=
        fun hpe => hne (congrArg Prod.fst hpe)
      exact hcd.forall (fun _ _ hab => Ne.symm hab) hmem2 (alookup_mem he) hpne
    have hle : (cleanup s now).2.count h ≤ 1 := by
      rw [cleanup]
      exact cleanupLoop_freed_count _ _ h hde hdh
        (fun i j ci cj hi hj hti htj => hinjL i j ci cj h hi hj hti htj)
    have hnz : (cleanup s now).2.count h ≠ 0 :=
      fun h0 => (List.count_eq_zero.1 h0) hmem
    omega

/-- Concrete cache used by the C3 witness: two stale `Loaded` entries, one
solely owned by the cache, one also held by an external consumer. -/
def evictSample : CacheState :=
  ⟨[(0, ⟨.Loaded (.User 3), 0⟩), (1, ⟨.Loaded (.User 4), 0⟩)], [(1, 1)],
    [(Key.Https "a", 0), (Key.Https "b", 1)], 2⟩

/-- C3 witness: the externally held entry loses its key but keeps its cell
and its texture; the solely owned entry has its handle freed exactly once. -/
theorem cleanup_safe_eviction_witness :
    alookup (Key.Https "b") (cleanup evictSample 100).1.entries = none ∧
    alookup 1 (cleanup evictSample 100).1.heap = alookup 1 evictSample.heap ∧
    (cleanup evictSample 100).2.count (.User 4) = 0 ∧
    (cleanup evictSample 100).2.count (.User 3) = 1 := by
  have h := cleanup_safe_eviction evictSample 100
    ⟨by decide, by decide, by decide, by decide, by decide⟩
  have h1 := h.1 (Key.Https "b") 1 rfl (by decide) (by decide)
  exact ⟨h1.1, h1.2.1, h1.2.2 ⟨.Loaded (.User 4), 0⟩ (.User 4) rfl rfl,
    h.2.1 (Key.Https "a") 0 ⟨.Loaded (.User 3), 0⟩ (.User 3) rfl (by decide)
      rfl rfl rfl⟩

end Img
